import Mathlib

/-!
Shallow embedding of the interactive sales dashboard
(`src/interactive sales dashboard/app.py`).

A pandas row becomes a `Record`; a DataFrame becomes a `List Record`
in row order.  Dates are modelled as `Int` (calendar dates are totally
ordered and `pd.Timestamp` comparison is a total order); `Sales` is a
rational number (a numeric amount, divided in `avg_order_value`);
`Quantity` is an integer.

* `df_filtered` embeds lines 40-44: `isin` on Region and Product plus
  `Date.between` (inclusive on both ends by default).
* `total_sales`, `total_quantity`, `avg_order_value` embed lines 49-51.
* `sales_over_time` embeds line 65 (`groupby("Date")["Sales"].sum()`:
  pandas sorts group keys ascending).
* `regions`, `products`, `labels`, `region_idx`, `product_idx` and
  `buildEdges` embed lines 88-99 (the Sankey construction: `unique()`
  keeps first-occurrence order; the dict lookups `region_idx[...]` and
  `product_idx[...]` can raise `KeyError`, hence `Option`).
* `word_freq` embeds line 122 (`groupby("Product")["Sales"].sum().to_dict()`,
  a label-to-weight mapping).
* `applyDateSelection` embeds the indexing `date_filter[0]` /
  `date_filter[1]` on line 43: the date-range widget delivers a tuple of
  zero, one or two dates, and indexing past the end raises `IndexError`,
  hence `Option`.
-/

structure Record where
  Date : Int
  Region : String
  Product : String
  Sales : ℚ
  Quantity : Int
deriving DecidableEq, Repr

/-- Lines 40-44: `df[(df["Region"].isin(region_filter)) &
(df["Product"].isin(product_filter)) &
(df["Date"].between(t0, t1))]`.  `between` is inclusive on both ends. -/
def df_filtered (df : List Record) (region_filter product_filter : List String)
    (d0 d1 : Int) : List Record :=
  df.filter (fun r =>
    region_filter.contains r.Region &&
    product_filter.contains r.Product &&
    (decide (d0 ≤ r.Date) && decide (r.Date ≤ d1)))

/-- Line 49: `df_filtered["Sales"].sum()`. -/
def total_sales (v : List Record) : ℚ :=
  (v.map Record.Sales).sum

/-- Line 50: `df_filtered["Quantity"].sum()`. -/
def total_quantity (v : List Record) : Int :=
  (v.map Record.Quantity).sum

/-- Line 51: `total_sales / total_quantity if total_quantity > 0 else 0`. -/
def avg_order_value (v : List Record) : ℚ :=
  if 0 < total_quantity v then total_sales v / (total_quantity v : ℚ) else 0

/-- `Series.unique()`: the distinct values in first-occurrence order. -/
def uniques {α : Type} [DecidableEq α] (xs : List α) : List α :=
  xs.foldl (fun acc x => if x ∈ acc then acc else acc ++ [x]) []

/-- Line 88: `regions = list(df_filtered["Region"].unique())`. -/
def regions (v : List Record) : List String :=
  uniques (v.map Record.Region)

/-- Line 89: `products = list(df_filtered["Product"].unique())`. -/
def products (v : List Record) : List String :=
  uniques (v.map Record.Product)

/-- Line 91: `labels = regions + products`. -/
def labels (v : List Record) : List String :=
  regions v ++ products v

/-- Index of the first occurrence of `x`, `none` when absent
(a Python dict lookup raising `KeyError` on a missing key). -/
def lookupIdx {α : Type} [DecidableEq α] : List α → α → Option Nat
  | [], _ => none
  | y :: ys, x => if y = x then some 0 else (lookupIdx ys x).map (· + 1)

/-- Line 92: `region_idx = {region: i for i, region in enumerate(regions)}`,
queried at a key. -/
def region_idx (v : List Record) (x : String) : Option Nat :=
  lookupIdx (regions v) x

/-- Line 93: `product_idx = {prod: len(regions) + i for i, prod in
enumerate(products)}`, queried at a key. -/
def product_idx (v : List Record) (x : String) : Option Nat :=
  (lookupIdx (products v) x).map (fun i => (regions v).length + i)

/-- Lines 95-99 for a single row: one `(source, target, value)` link,
`none` when a dict lookup raises `KeyError`. -/
def mkEdge (v : List Record) (r : Record) : Option (Nat × Nat × ℚ) :=
  match region_idx v r.Region, product_idx v r.Product with
  | some i, some j => some (i, j, r.Sales)
  | _, _ => none

/-- The loop of lines 95-99: one edge appended per row, the whole
construction failing as soon as one lookup fails. -/
def traverseEdges (f : Record → Option (Nat × Nat × ℚ)) :
    List Record → Option (List (Nat × Nat × ℚ))
  | [] => some []
  | r :: rs =>
    match f r, traverseEdges f rs with
    | some e, some es => some (e :: es)
    | _, _ => none

/-- Lines 95-99: the `sources`/`targets`/`values` triples, one per row
of `df_filtered`, in row order. -/
def buildEdges (v : List Record) : Option (List (Nat × Nat × ℚ)) :=
  traverseEdges (mkEdge v) v

/-- Line 65: `df_filtered.groupby("Date")["Sales"].sum().reset_index()` —
pandas groups by the distinct dates sorted ascending and sums `Sales`
within each group. -/
def sales_over_time (v : List Record) : List (Int × ℚ) :=
  (List.insertionSort (· ≤ ·) (uniques (v.map Record.Date))).map
    (fun d => (d, ((v.filter (fun r => decide (r.Date = d))).map Record.Sales).sum))

/-- Line 122: `df_filtered.groupby("Product")["Sales"].sum().to_dict()` —
a label-to-weight association (key order irrelevant for a dict). -/
def word_freq (v : List Record) : List (String × ℚ) :=
  (products v).map
    (fun p => (p, ((v.filter (fun r => decide (r.Product = p))).map Record.Sales).sum))

/-- Line 43 indexing: the widget value `date_filter` is a tuple of dates;
the code reads `date_filter[0]` and `date_filter[1]`, raising
`IndexError` when fewer than two dates have been delivered. -/
def applyDateSelection (df : List Record) (region_filter product_filter : List String)
    (dates : List Int) : Option (List Record) :=
  match dates[0]?, dates[1]? with
  | some d0, some d1 => some (df_filtered df region_filter product_filter d0 d1)
  | _, _ => none

/-- The spec's own words for the filtered view, for comparison with
`df_filtered`: "the subsequence of Dataset records satisfying:
Region ∈ region set AND Product ∈ product set AND start ≤ Date ≤ end". -/
def filteredViewSpec (df : List Record) (regionSet productSet : List String)
    (start stop : Int) : List Record :=
  df.filter (fun r =>
    decide (r.Region ∈ regionSet ∧ r.Product ∈ productSet ∧
      start ≤ r.Date ∧ r.Date ≤ stop))

/-- First row of the spec's worked scenario. -/
def rec1 : Record := ⟨1, "East", "Widget", 100, 2⟩

/-- Second row of the spec's worked scenario. -/
def rec2 : Record := ⟨2, "West", "Gadget", 50, 1⟩

/-- The spec's worked scenario dataset. -/
def demo : List Record := [rec1, rec2]

/-- A record whose Region/Product can be selected while its Date is out
of range. -/
def recA : Record := ⟨1, "A", "P1", 100, 2⟩

/-- A record whose Date is in range while its Region/Product are not
selected. -/
def recB : Record := ⟨2, "B", "P2", 50, 1⟩

/-- A dataset where the three filter predicates are satisfiable only by
different records. -/
def mixedDs : List Record := [recA, recB]

/-! ### Helper lemmas -/

theorem uniques_loop_mem {α : Type} [DecidableEq α] (xs : List α) :
    ∀ (acc : List α) (y : α),
      (y ∈ xs.foldl (fun acc x => if x ∈ acc then acc else acc ++ [x]) acc) ↔
        y ∈ acc ∨ y ∈ xs := by
  induction xs with
  | nil => simp
  | cons x xs ih =>
    intro acc y
    simp only [List.foldl_cons]
    rw [ih]
    by_cases hx : x ∈ acc
    · simp only [if_pos hx, List.mem_cons]
      constructor
      · rintro (h | h)
        · exact Or.inl h
        · exact Or.inr (Or.inr h)
      · rintro (h | h | h)
        · exact Or.inl h
        · exact Or.inl (h ▸ hx)
        · exact Or.inr h
    · simp only [if_neg hx, List.mem_append, List.mem_singleton, List.mem_cons]
      tauto

theorem mem_uniques {α : Type} [DecidableEq α] {xs : List α} {y : α} :
    y ∈ uniques xs ↔ y ∈ xs := by
  rw [uniques, uniques_loop_mem]
  simp

theorem uniques_loop_nodup {α : Type} [DecidableEq α] (xs : List α) :
    ∀ acc : List α, acc.Nodup →
      (xs.foldl (fun acc x => if x ∈ acc then acc else acc ++ [x]) acc).Nodup := by
  induction xs with
  | nil => intro acc h; simpa using h
  | cons x xs ih =>
    intro acc hacc
    simp only [List.foldl_cons]
    by_cases hx : x ∈ acc
    · rw [if_pos hx]; exact ih acc hacc
    · rw [if_neg hx]
      refine ih _ ?_
      simp [List.nodup_append, hacc, hx]

theorem nodup_uniques {α : Type} [DecidableEq α] (xs : List α) :
    (uniques xs).Nodup :=
  uniques_loop_nodup xs [] List.nodup_nil

theorem lookupIdx_of_mem {α : Type} [DecidableEq α] {l : List α} {x : α}
    (h : x ∈ l) : ∃ i, lookupIdx l x = some i := by
  induction l with
  | nil => simp at h
  | cons y ys ih =>
    by_cases hy : y = x
    · exact ⟨0, by simp [lookupIdx, hy]⟩
    · rcases ih (by rcases List.mem_cons.mp h with h | h; exact absurd h.symm hy; exact h) with ⟨i, hi⟩
      exact ⟨i + 1, by simp [lookupIdx, hy, hi]⟩

theorem lookupIdx_spec {α : Type} [DecidableEq α] :
    ∀ (l : List α) (x : α) (i : Nat), lookupIdx l x = some i →
      i < l.length ∧ l[i]? = some x := by
  intro l
  induction l with
  | nil => intro x i h; simp [lookupIdx] at h
  | cons y ys ih =>
    intro x i h
    by_cases hy : y = x
    · simp only [lookupIdx, if_pos hy, Option.some.injEq] at h
      subst h
      simp [hy]
    · simp only [lookupIdx, if_neg hy, Option.map_eq_some'] at h
      rcases h with ⟨j, hj, rfl⟩
      rcases ih x j hj with ⟨h1, h2⟩
      exact ⟨Nat.succ_lt_succ h1, by simpa using h2⟩

theorem lookupIdx_of_nodup {α : Type} [DecidableEq α] :
    ∀ (l : List α), l.Nodup → ∀ (i : Nat) (x : α), l[i]? = some x →
      lookupIdx l x = some i := by
  intro l
  induction l with
  | nil => intro _ i x h; simp at h
  | cons y ys ih =>
    intro hnd i x h
    match i with
    | 0 =>
      simp only [List.getElem?_cons_zero, Option.some.injEq] at h
      simp [lookupIdx, h]
    | Nat.succ j =>
      simp only [List.getElem?_cons_succ] at h
      have hys : ys.Nodup := (List.nodup_cons.mp hnd).2
      have hyx : y ≠ x := by
        intro hcon
        have : x ∈ ys := by
          have hsp := lookupIdx_spec ys x j (ih hys j x h)
          rcases List.getElem?_eq_some.mp hsp.2 with ⟨hlt, heq⟩
          exact heq ▸ List.getElem_mem hlt
        exact (List.nodup_cons.mp hnd).1 (hcon ▸ this)
      simp [lookupIdx, hyx, ih hys j x h]

theorem region_mem_regions {v : List Record} {r : Record} (h : r ∈ v) :
    r.Region ∈ regions v :=
  mem_uniques.mpr (List.mem_map_of_mem Record.Region h)

theorem product_mem_products {v : List Record} {r : Record} (h : r ∈ v) :
    r.Product ∈ products v :=
  mem_uniques.mpr (List.mem_map_of_mem Record.Product h)

theorem mkEdge_isSome {v : List Record} {r : Record} (h : r ∈ v) :
    ∃ e, mkEdge v r = some e := by
  rcases lookupIdx_of_mem (region_mem_regions h) with ⟨i, hi⟩
  rcases lookupIdx_of_mem (product_mem_products h) with ⟨j, hj⟩
  refine ⟨(i, (regions v).length + j, r.Sales), ?_⟩
  simp [mkEdge, region_idx, product_idx, hi, hj]

theorem traverseEdges_total {f : Record → Option (Nat × Nat × ℚ)} :
    ∀ {l : List Record}, (∀ r ∈ l, ∃ e, f r = some e) →
      ∃ es, traverseEdges f l = some es := by
  intro l
  induction l with
  | nil => exact fun _ => ⟨[], rfl⟩
  | cons r rs ih =>
    intro h
    rcases h r (List.mem_cons_self r rs) with ⟨e, he⟩
    rcases ih (fun x hx => h x (List.mem_cons_of_mem r hx)) with ⟨es, hes⟩
    exact ⟨e :: es, by simp [traverseEdges, he, hes]⟩

theorem traverseEdges_spec {f : Record → Option (Nat × Nat × ℚ)} :
    ∀ {l : List Record} {es : List (Nat × Nat × ℚ)},
      traverseEdges f l = some es →
        es.length = l.length ∧
        ∀ (k : Nat) (r : Record) (e : Nat × Nat × ℚ),
          l[k]? = some r → es[k]? = some e → f r = some e := by
  intro l
  induction l with
  | nil =>
    intro es h
    simp only [traverseEdges, Option.some.injEq] at h
    subst h
    exact ⟨rfl, by intro k r e hr; simp at hr⟩
  | cons r rs ih =>
    intro es h
    simp only [traverseEdges] at h
    rcases he : f r with _ | e <;> rw [he] at h
    · exact absurd h (by simp)
    rcases hes : traverseEdges f rs with _ | es' <;> rw [hes] at h
    · exact absurd h (by simp)
    simp only [Option.some.injEq] at h
    subst h
    rcases ih hes with ⟨hlen, hk⟩
    refine ⟨by simp [hlen], ?_⟩
    intro k x e' hx he'
    match k with
    | 0 =>
      simp only [List.getElem?_cons_zero, Option.some.injEq] at hx he'
      rw [← hx, ← he']
      exact he
    | Nat.succ k =>
      simp only [List.getElem?_cons_succ] at hx he'
      exact hk k x e' hx he'

theorem traverseEdges_values_sum {v : List Record} :
    ∀ {l : List Record} {es : List (Nat × Nat × ℚ)},
      traverseEdges (mkEdge v) l = some es →
        (es.map (fun e => e.2.2)).sum = (l.map Record.Sales).sum := by
  intro l
  induction l with
  | nil =>
    intro es h
    simp only [traverseEdges, Option.some.injEq] at h
    subst h
    simp
  | cons r rs ih =>
    intro es h
    simp only [traverseEdges] at h
    rcases he : mkEdge v r with _ | e <;> rw [he] at h
    · exact absurd h (by simp)
    rcases hes : traverseEdges (mkEdge v) rs with _ | es' <;> rw [hes] at h
    · exact absurd h (by simp)
    simp only [Option.some.injEq] at h
    subst h
    have hval : e.2.2 = r.Sales := by
      simp only [mkEdge] at he
      rcases hri : region_idx v r.Region with _ | i <;> rw [hri] at he
      · exact absurd he (by simp)
      rcases hpi : product_idx v r.Product with _ | j <;> rw [hpi] at he
      · exact absurd he (by simp)
      simp only [Option.some.injEq] at he
      rw [← he]
    simp [ih hes, hval]

theorem sum_map_fun_add {α : Type} (l : List α) (f g : α → ℚ) :
    (l.map (fun x => f x + g x)).sum = (l.map f).sum + (l.map g).sum := by
  induction l with
  | nil => simp
  | cons x xs ih => simp [ih]; ring

theorem sum_map_ite_of_not_mem {α : Type} [DecidableEq α] {l : List α} {a : α}
    (h : a ∉ l) (c : ℚ) : (l.map (fun d => if a = d then c else 0)).sum = 0 := by
  induction l with
  | nil => simp
  | cons x xs ih =>
    have hx : a ≠ x := fun hc => h (hc ▸ List.mem_cons_self x xs)
    have hxs : a ∉ xs := fun hc => h (List.mem_cons_of_mem x hc)
    simp [hx, ih hxs]

theorem sum_map_ite_of_nodup {α : Type} [DecidableEq α] {l : List α} {a : α}
    (hnd : l.Nodup) (hmem : a ∈ l) (c : ℚ) :
    (l.map (fun d => if a = d then c else 0)).sum = c := by
  induction l with
  | nil => simp at hmem
  | cons x xs ih =>
    rcases List.nodup_cons.mp hnd with ⟨hx, hxs⟩
    by_cases hax : a = x
    · subst hax
      simp [sum_map_ite_of_not_mem hx c]
    · rcases List.mem_cons.mp hmem with h | h
      · exact absurd h hax
      · simp [hax, ih hxs h]

theorem date_partition_sum :
    ∀ (v : List Record) (l : List Int), l.Nodup → (∀ r ∈ v, r.Date ∈ l) →
      (l.map (fun d =>
          ((v.filter (fun r => decide (r.Date = d))).map Record.Sales).sum)).sum =
        (v.map Record.Sales).sum := by
  intro v
  induction v with
  | nil => intro l _ _; simp
  | cons r v ih =>
    intro l hnd hmem
    have hstep : ∀ d : Int,
        (((r :: v).filter (fun x => decide (x.Date = d))).map Record.Sales).sum =
          (if r.Date = d then r.Sales else 0) +
            ((v.filter (fun x => decide (x.Date = d))).map Record.Sales).sum := by
      intro d
      by_cases hd : r.Date = d <;> simp [List.filter_cons, hd]
    rw [List.map_congr_left (fun d _ => hstep d), sum_map_fun_add,
      sum_map_ite_of_nodup hnd (hmem r (List.mem_cons_self r v)) r.Sales,
      ih l hnd (fun x hx => hmem x (List.mem_cons_of_mem r hx))]
    simp

/-! ### Claims -/

/-- C1: for every dataset and filter selection, the filtered view equals
exactly the subsequence of dataset records, in original row order, whose
Region is in the region set, whose Product is in the product set, and
whose Date lies in the inclusive interval [start, stop]. -/
theorem C1_filtered_view_matches_spec (df : List Record)
    (regionSet productSet : List String) (start stop : Int) :
    df_filtered df regionSet productSet start stop =
      filteredViewSpec df regionSet productSet start stop ∧
    (df_filtered df regionSet productSet start stop).Sublist df ∧
    ∀ r, r ∈ df_filtered df regionSet productSet start stop ↔
      r ∈ df ∧ r.Region ∈ regionSet ∧ r.Product ∈ productSet ∧
        start ≤ r.Date ∧ r.Date ≤ stop := by
  have heq : df_filtered df regionSet productSet start stop =
      filteredViewSpec df regionSet productSet start stop := by
    unfold df_filtered filteredViewSpec
    apply List.filter_congr
    intro r _
    simp [List.contains, Bool.and_assoc]
  refine ⟨heq, List.filter_sublist df, ?_⟩
  intro r
  rw [heq]
  unfold filteredViewSpec
  simp [List.mem_filter]

/-- C2: `total_sales` is exactly the sum of the `Sales` values of the
filtered view's records and `total_quantity` is exactly the sum of their
`Quantity` values — each record contributes exactly once. -/
theorem C2_totals_are_exact_sums (df : List Record)
    (regionSet productSet : List String) (start stop : Int) :
    total_sales (df_filtered df regionSet productSet start stop) =
      ((df_filtered df regionSet productSet start stop).map Record.Sales).sum ∧
    total_quantity (df_filtered df regionSet productSet start stop) =
      ((df_filtered df regionSet productSet start stop).map Record.Quantity).sum ∧
    ∀ v w : List Record, total_sales (v ++ w) = total_sales v + total_sales w ∧
      total_quantity (v ++ w) = total_quantity v + total_quantity w :=
  ⟨rfl, rfl, fun v w => by simp [total_sales, total_quantity]⟩

/-- C3: `avg_order_value` equals `total_sales / total_quantity` when the
total quantity is positive (a genuine division: multiplying back by the
total quantity recovers the total sales) and equals 0 when the total
quantity is 0; the guard makes the definition total, so no error and no
NaN value can arise. -/
theorem C3_avg_order_value_guarded (v : List Record) :
    (0 < total_quantity v →
      avg_order_value v = total_sales v / (total_quantity v : ℚ) ∧
      avg_order_value v * (total_quantity v : ℚ) = total_sales v) ∧
    (total_quantity v = 0 → avg_order_value v = 0) := by
  constructor
  · intro hpos
    have hne : (total_quantity v : ℚ) ≠ 0 := by
      exact_mod_cast Int.ne_of_gt hpos
    constructor
    · simp [avg_order_value, hpos]
    · simp [avg_order_value, hpos, div_mul_cancel₀ (total_sales v) hne]
  · intro hz
    simp [avg_order_value, hz]

/-- Witness for C3 on the spec's worked scenario: total quantity 3,
total sales 150, average order value 50. -/
theorem C3_witness :
    0 < total_quantity demo ∧
    avg_order_value demo = total_sales demo / (total_quantity demo : ℚ) ∧
    total_quantity demo = 3 ∧ total_sales demo = 150 ∧ avg_order_value demo = 50 := by
  have h := (C3_avg_order_value_guarded demo).1 (by decide)
  have hts : total_sales demo = 150 := by norm_num [total_sales, demo, rec1, rec2]
  have htq : total_quantity demo = 3 := by decide
  refine ⟨by decide, h.1, htq, hts, ?_⟩
  rw [h.1, hts, htq]
  norm_num

theorem mem_df_filtered {df : List Record} {rs ps : List String}
    {d0 d1 : Int} {r : Record} :
    r ∈ df_filtered df rs ps d0 d1 ↔
      r ∈ df ∧ r.Region ∈ rs ∧ r.Product ∈ ps ∧ d0 ≤ r.Date ∧ r.Date ≤ d1 := by
  simp [df_filtered, List.mem_filter, List.contains, and_assoc]

theorem mkEdge_eq_some {v : List Record} {r : Record} {e : Nat × Nat × ℚ}
    (h : mkEdge v r = some e) :
    region_idx v r.Region = some e.1 ∧ product_idx v r.Product = some e.2.1 ∧
      e.2.2 = r.Sales := by
  unfold mkEdge at h
  rcases hri : region_idx v r.Region with _ | i <;> rw [hri] at h
  · exact absurd h (by simp)
  rcases hpi : product_idx v r.Product with _ | j <;> rw [hpi] at h
  · exact absurd h (by simp)
  simp only [Option.some.injEq] at h
  subst h
  exact ⟨rfl, rfl, rfl⟩

/-- C7: an empty region multiselect or an empty product multiselect makes
the filtered view empty, and on an empty filtered view every derived
output degrades gracefully: the three KPIs are 0, the word-cloud
frequency mapping is empty, and the Sankey flow graph has no nodes and
no edges. -/
theorem C7_empty_selection_degrades (df : List Record)
    (regionSet productSet : List String) (start stop : Int) :
    df_filtered df [] productSet start stop = [] ∧
    df_filtered df regionSet [] start stop = [] ∧
    total_sales [] = 0 ∧ total_quantity [] = 0 ∧ avg_order_value [] = 0 ∧
    word_freq [] = [] ∧ labels [] = [] ∧ buildEdges [] = some [] := by
  refine ⟨?_, ?_, rfl, rfl, ?_, rfl, rfl, rfl⟩
  · simp [df_filtered]
  · simp [df_filtered]
  · simp [avg_order_value, total_quantity]

/-- C9: the claim promises totality for every value the date-range widget
can deliver, including fewer than two dates; but the code indexes
`date_filter[1]`, which fails (raises `IndexError`) whenever the widget
delivers a single date or no date, and succeeds only with two dates. -/
theorem C9_single_date_selection_fails (df : List Record)
    (regionSet productSet : List String) (d : Int) :
    applyDateSelection df regionSet productSet [d] = none ∧
    applyDateSelection df regionSet productSet [] = none ∧
    ∀ d0 d1 : Int, applyDateSelection df regionSet productSet [d0, d1] =
      some (df_filtered df regionSet productSet d0 d1) :=
  ⟨rfl, rfl, fun _ _ => rfl⟩

/-- C4: the flow graph is built by exactly these steps: the node label
list is the distinct Region labels in first-occurrence order (indices
0..R-1) followed by the distinct Product labels in first-occurrence
order (indices R..R+P-1), and one edge (region index, product index,
Sales value) is emitted per record of the filtered view in original row
order, with no deduplication and no pre-summing. -/
theorem C4_flow_graph_construction (v : List Record) :
    labels v = regions v ++ products v ∧
    regions v = uniques (v.map Record.Region) ∧
    products v = uniques (v.map Record.Product) ∧
    (∀ (i : Nat) (x : String), (regions v)[i]? = some x →
      region_idx v x = some i) ∧
    (∀ (i : Nat) (x : String), (products v)[i]? = some x →
      product_idx v x = some ((regions v).length + i)) ∧
    ∃ es, buildEdges v = some es ∧ es.length = v.length ∧
      ∀ (k : Nat) (r : Record) (e : Nat × Nat × ℚ),
        v[k]? = some r → es[k]? = some e →
          region_idx v r.Region = some e.1 ∧
          product_idx v r.Product = some e.2.1 ∧ e.2.2 = r.Sales := by
  refine ⟨rfl, rfl, rfl, ?_, ?_, ?_⟩
  · intro i x h
    exact lookupIdx_of_nodup (regions v) (nodup_uniques _) i x h
  · intro i x h
    rw [product_idx, lookupIdx_of_nodup (products v) (nodup_uniques _) i x h]
    rfl
  · rcases traverseEdges_total (fun r hr => mkEdge_isSome hr) with ⟨es, hes⟩
    rcases traverseEdges_spec hes with ⟨hlen, hk⟩
    exact ⟨es, hes, hlen, fun k r e hr he => mkEdge_eq_some (hk k r e hr he)⟩

/-- Witness for C4 on the spec's worked scenario: "West" is the second
region node, "Gadget" the fourth node overall, and the two rows yield
the two edges (0,2,100) and (1,3,50). -/
theorem C4_witness :
    (regions demo)[1]? = some "West" ∧ region_idx demo "West" = some 1 ∧
    (products demo)[1]? = some "Gadget" ∧
    product_idx demo "Gadget" = some ((regions demo).length + 1) ∧
    buildEdges demo = some [(0, 2, 100), (1, 3, 50)] := by
  have h := C4_flow_graph_construction demo
  exact ⟨rfl, h.2.2.2.1 1 "West" rfl, rfl, h.2.2.2.2.1 1 "Gadget" rfl, rfl⟩

/-- C5: the flow graph has exactly one edge per record of the filtered
view, and the edge weights sum to `total_sales`. -/
theorem C5_edge_count_and_weight_sum (v : List Record)
    (es : List (Nat × Nat × ℚ)) (h : buildEdges v = some es) :
    es.length = v.length ∧
    (es.map (fun e => e.2.2)).sum = total_sales v :=
  ⟨(traverseEdges_spec h).1, traverseEdges_values_sum h⟩

/-- Witness for C5 on the spec's worked scenario: two edges for two
rows, total weight 150 = total sales. -/
theorem C5_witness :
    buildEdges demo = some [(0, 2, 100), (1, 3, 50)] ∧
    ([(0, 2, (100 : ℚ)), (1, 3, 50)] : List (Nat × Nat × ℚ)).length = demo.length ∧
    (([(0, 2, (100 : ℚ)), (1, 3, 50)] : List (Nat × Nat × ℚ)).map
      (fun e => e.2.2)).sum = total_sales demo := by
  have hb : buildEdges demo = some [(0, 2, 100), (1, 3, 50)] := rfl
  have h := C5_edge_count_and_weight_sum demo [(0, 2, 100), (1, 3, 50)] hb
  exact ⟨hb, h.1, h.2⟩

/-- C10: every emitted flow edge carries valid node indices: the source
index is below R and resolves in the label list to the record's Region,
the target index lies in R..R+P-1 and resolves to the record's Product —
the dict lookups built from the same filtered view never fail. -/
theorem C10_edge_indices_valid (v : List Record) (r : Record) (h : r ∈ v) :
    ∃ i j, region_idx v r.Region = some i ∧ product_idx v r.Product = some j ∧
      i < (regions v).length ∧
      (regions v).length ≤ j ∧ j < (labels v).length ∧
      (labels v)[i]? = some r.Region ∧ (labels v)[j]? = some r.Product := by
  rcases lookupIdx_of_mem (region_mem_regions h) with ⟨i, hi⟩
  rcases lookupIdx_of_mem (product_mem_products h) with ⟨j0, hj0⟩
  rcases lookupIdx_spec (regions v) r.Region i hi with ⟨hilt, higet⟩
  rcases lookupIdx_spec (products v) r.Product j0 hj0 with ⟨hjlt, hjget⟩
  refine ⟨i, (regions v).length + j0, hi, ?_, hilt, ?_, ?_, ?_, ?_⟩
  · rw [product_idx, hj0]
    rfl
  · exact Nat.le_add_right _ _
  · rw [labels, List.length_append]
    exact Nat.add_lt_add_left hjlt _
  · rw [labels, List.getElem?_append_left hilt]
    exact higet
  · rw [labels, List.getElem?_append_right (Nat.le_add_right _ _)]
    simpa using hjget

/-- Witness for C10 on the spec's worked scenario at its second row:
source index 1 resolves to "West", target index 3 resolves to "Gadget". -/
theorem C10_witness :
    region_idx demo rec2.Region = some 1 ∧
    product_idx demo rec2.Product = some 3 ∧
    1 < (regions demo).length ∧ (regions demo).length ≤ 3 ∧
    3 < (labels demo).length ∧
    (labels demo)[1]? = some rec2.Region ∧ (labels demo)[3]? = some rec2.Product := by
  obtain ⟨i, j, h1, h2, h3, h4, h5, h6, h7⟩ :=
    C10_edge_indices_valid demo rec2 (by simp [demo])
  have hi : i = 1 := by
    have hval : region_idx demo rec2.Region = some 1 := rfl
    exact (Option.some.inj (hval.symm.trans h1)).symm
  have hj : j = 3 := by
    have hval : product_idx demo rec2.Product = some 3 := rfl
    exact (Option.some.inj (hval.symm.trans h2)).symm
  subst hi hj
  exact ⟨h1, h2, h3, h4, h5, h6, h7⟩

/-- C6: the time series has exactly one entry per distinct Date of the
filtered view (its dates are strictly increasing, and a date appears in
it iff some record carries it), each entry carries the sum of Sales for
its date, and the entries' sums add up to `total_sales` — the per-date
groups partition the filtered view. -/
theorem C6_time_series (v : List Record) :
    List.Sorted (· < ·) ((sales_over_time v).map Prod.fst) ∧
    (∀ d : Int, d ∈ (sales_over_time v).map Prod.fst ↔ d ∈ v.map Record.Date) ∧
    (∀ p ∈ sales_over_time v,
      p.2 = ((v.filter (fun r => decide (r.Date = p.1))).map Record.Sales).sum) ∧
    ((sales_over_time v).map Prod.snd).sum = total_sales v := by
  have hfst : (sales_over_time v).map Prod.fst =
      List.insertionSort (· ≤ ·) (uniques (v.map Record.Date)) := by
    simp only [sales_over_time, List.map_map]
    exact (List.map_congr_left fun a _ => rfl).trans (List.map_id _)
  have hnd : (List.insertionSort (· ≤ ·) (uniques (v.map Record.Date))).Nodup :=
    (List.perm_insertionSort _ _).nodup_iff.mpr (nodup_uniques _)
  refine ⟨?_, ?_, ?_, ?_⟩
  · rw [hfst]
    exact (List.sorted_insertionSort _ _).lt_of_le hnd
  · intro d
    rw [hfst]
    simp [mem_uniques]
  · intro p hp
    rcases List.mem_map.mp hp with ⟨d, _, rfl⟩
    rfl
  · have h1 : ((sales_over_time v).map Prod.snd).sum =
        ((List.insertionSort (· ≤ ·) (uniques (v.map Record.Date))).map
          (fun d => ((v.filter (fun r => decide (r.Date = d))).map
            Record.Sales).sum)).sum := by
      simp only [sales_over_time, List.map_map]
      congr 1
    rw [h1,
      ((List.perm_insertionSort (· ≤ ·) (uniques (v.map Record.Date))).map _).sum_eq,
      date_partition_sum v _ (nodup_uniques _)
        (fun r hr => mem_uniques.mpr (List.mem_map_of_mem Record.Date hr))]
    rfl

/-- Witness for C6 on the spec's worked scenario: the time series is
[(1,100),(2,50)], strictly increasing in date, the entry for date 1
carries the sum for that date, and the entries add up to total sales. -/
theorem C6_witness :
    sales_over_time demo = [(1, 100), (2, 50)] ∧
    List.Sorted (· < ·) ((sales_over_time demo).map Prod.fst) ∧
    ((1 : Int), (100 : ℚ)) ∈ sales_over_time demo ∧
    (100 : ℚ) =
      ((demo.filter (fun r => decide (r.Date = (1 : Int)))).map Record.Sales).sum ∧
    ((sales_over_time demo).map Prod.snd).sum = total_sales demo := by
  have h := C6_time_series demo
  have he : sales_over_time demo = [(1, 100), (2, 50)] := by
    norm_num [sales_over_time, demo, rec1, rec2, uniques, List.insertionSort,
      List.orderedInsert, List.filter]
  have hmem : ((1 : Int), (100 : ℚ)) ∈ sales_over_time demo := by
    rw [he]
    simp
  exact ⟨he, h.1, hmem, h.2.2.1 ((1 : Int), (100 : ℚ)) hmem, h.2.2.2⟩

/-- Counterexample to C8 as stated: both multiselects are non-empty and
the date interval [2,2] contains the Date of the second dataset record,
yet the filtered view is empty — the record whose Date is in range has
an unselected Region and Product, and the record with selected Region
and Product has its Date out of range. -/
theorem C8_counterexample :
    (["A"] : List String) ≠ [] ∧ (["P1"] : List String) ≠ [] ∧
    recB ∈ mixedDs ∧ (2 : Int) ≤ recB.Date ∧ recB.Date ≤ 2 ∧
    df_filtered mixedDs ["A"] ["P1"] 2 2 = [] := by
  refine ⟨by simp, by simp, by simp [mixedDs], by decide, by decide, rfl⟩

/-- C8 amended: if additionally at least one dataset record satisfies
all three membership predicates simultaneously (rather than the three
predicates each being satisfiable separately), the filtered view is
non-empty, and every element of it satisfies the three membership
predicates. -/
theorem C8_joint_satisfaction_nonempty (df : List Record)
    (regionSet productSet : List String) (start stop : Int)
    (h : ∃ r ∈ df, r.Region ∈ regionSet ∧ r.Product ∈ productSet ∧
      start ≤ r.Date ∧ r.Date ≤ stop) :
    df_filtered df regionSet productSet start stop ≠ [] ∧
    ∀ r ∈ df_filtered df regionSet productSet start stop,
      r.Region ∈ regionSet ∧ r.Product ∈ productSet ∧
        start ≤ r.Date ∧ r.Date ≤ stop := by
  obtain ⟨r, hr, h1, h2, h3, h4⟩ := h
  constructor
  · exact List.ne_nil_of_mem (mem_df_filtered.mpr ⟨hr, h1, h2, h3, h4⟩)
  · intro x hx
    exact (mem_df_filtered.mp hx).2

/-- Witness for the amended C8 on the spec's worked scenario with the
full selection: the filtered view is non-empty. -/
theorem C8_witness :
    rec1 ∈ demo ∧ rec1.Region ∈ (["East", "West"] : List String) ∧
    rec1.Product ∈ (["Widget", "Gadget"] : List String) ∧
    df_filtered demo ["East", "West"] ["Widget", "Gadget"] 1 2 ≠ [] := by
  have hex : ∃ r ∈ demo, r.Region ∈ (["East", "West"] : List String) ∧
      r.Product ∈ (["Widget", "Gadget"] : List String) ∧
      (1 : Int) ≤ r.Date ∧ r.Date ≤ 2 :=
    ⟨rec1, by simp [demo], by decide, by decide, by decide, by decide⟩
  exact ⟨by simp [demo], by decide, by decide,
    (C8_joint_satisfaction_nonempty demo ["East", "West"] ["Widget", "Gadget"]
      1 2 hex).1⟩
